import Mathlib

/-!
Shallow embedding of `src/lib.rs` (crate `priority_blocking_queue`).

The Rust type is

  pub struct PriorityBlockingQueue<T> {
      elements: RwLock<BinaryHeap<T>>,
      non_empty: (Mutex<bool>, Condvar),
      max_capacity: usize,
  }

We model a single-threaded execution: locks always succeed immediately, so
`RwLock`/`Mutex` disappear and the state is the triple of the heap contents,
the boolean behind the `non_empty` mutex, and the fixed `max_capacity`.

`std::collections::BinaryHeap<T>` is modelled by its documented contract:
a multiset of `T` whose `push` adds an element and whose `pop` removes and
returns a greatest element (`None` when empty).  We keep the contents as a
list sorted in descending order, so `push` is an ordered insert and `pop`
takes the head; the multiset of elements and the value returned by `pop`
agree with any max-heap.
-/

namespace PBQ

/-- The crate's error enum: `pub enum Error { QueueCapacityReached }`. -/
inductive Error where
  | QueueCapacityReached
deriving DecidableEq, Repr

/-- `BinaryHeap::push`: insert an element, keeping the list sorted
in descending order. -/
def heapPush {T : Type} [LinearOrder T] (h : List T) (t : T) : List T :=
  h.orderedInsert (· ≥ ·) t

/-- `BinaryHeap::pop`: remove and return a greatest element, `None` when
empty.  On a descending-sorted list this is the head. -/
def heapPop {T : Type} : List T → Option (T × List T)
  | [] => none
  | x :: xs => some (x, xs)

/-- The queue state visible between operations (single-threaded model):
the heap contents, the boolean behind `non_empty.0`, and `max_capacity`. -/
structure PriorityBlockingQueue (T : Type) where
  elements : List T
  non_empty : Bool
  max_capacity : Nat
deriving DecidableEq, Repr

/-- Outcome of a call to `pop` in the single-threaded model:
it returns a value and the successor state, or blocks forever on the
condition variable, or panics (the `unwrap` of `BinaryHeap::pop`). -/
inductive PopResult (T : Type) where
  | value (t : T) (q : PriorityBlockingQueue T)
  | blocked
  | panicked
deriving DecidableEq, Repr

variable {T : Type}

/-- `PriorityBlockingQueue::new(max_capacity)`. -/
def new (max_capacity : Nat) : PriorityBlockingQueue T :=
  { elements := [], non_empty := false, max_capacity := max_capacity }

/-- `len(&self) -> usize`: reads the heap under the read lock. -/
def len (q : PriorityBlockingQueue T) : Nat :=
  q.elements.length

/-- `notify_waiters_for_push(&self)`: sets the `non_empty` flag to `true`
(and notifies the condvar, which has no effect in a single-threaded run). -/
def notify_waiters_for_push (q : PriorityBlockingQueue T) :
    PriorityBlockingQueue T :=
  { q with non_empty := true }

/-- `push(&self, t) -> Result<(), Error>`: under the write lock, fail with
`QueueCapacityReached` when `elements.len() >= max_capacity` (no mutation),
otherwise insert and notify. -/
def push [LinearOrder T] (q : PriorityBlockingQueue T) (t : T) :
    Except Error Unit × PriorityBlockingQueue T :=
  if q.elements.length ≥ q.max_capacity then
    (Except.error Error.QueueCapacityReached, q)
  else
    (Except.ok (),
      notify_waiters_for_push { q with elements := heapPush q.elements t })

/-- `wait_non_empty(&self)`: `wait_while(guard, |non_empty| !*non_empty)`.
In a single-threaded run the wait returns exactly when the flag is already
`true`; it never changes the flag. -/
def wait_non_empty (q : PriorityBlockingQueue T) : Bool :=
  q.non_empty

/-- `pop(&self) -> T`: wait until the `non_empty` flag holds, then
`elements.pop().unwrap()` under the write lock.  When the flag is `false`
the call blocks forever; when the heap is empty the `unwrap` panics. -/
def pop (q : PriorityBlockingQueue T) : PopResult T :=
  if wait_non_empty q then
    match heapPop q.elements with
    | some (t, rest) => PopResult.value t { q with elements := rest }
    | none => PopResult.panicked
  else
    PopResult.blocked

/-- Run a sequence of `push` calls, stopping at the first failure. -/
def pushAll [LinearOrder T] (q : PriorityBlockingQueue T) :
    List T → Except Error (PriorityBlockingQueue T)
  | [] => Except.ok q
  | t :: ts =>
    match push q t with
    | (Except.ok _, q') => pushAll q' ts
    | (Except.error e, _) => Except.error e

/-- Run `n` `pop` calls, collecting the returned values; `none` when some
call blocks or panics. -/
def popN [LinearOrder T] :
    PriorityBlockingQueue T → Nat → Option (List T × PriorityBlockingQueue T)
  | q, 0 => some ([], q)
  | q, n + 1 =>
    match pop q with
    | PopResult.value t q' =>
      match popN q' n with
      | some (ts, q'') => some (t :: ts, q'')
      | none => none
    | _ => none

/-- The public operations a single-threaded client can call. -/
inductive Op (T : Type) where
  | push (t : T)
  | pop
  | len

/-- State transition of one operation; `none` when a `pop` blocks or
panics (so no later state is observable). A failed `push` returns its
unchanged state.  `len` only reads. -/
def runOp [LinearOrder T] (q : PriorityBlockingQueue T) :
    Op T → Option (PriorityBlockingQueue T)
  | Op.push t => some (push q t).2
  | Op.pop =>
    match pop q with
    | PopResult.value _ q' => some q'
    | _ => none
  | Op.len => some q

/-- Run a sequence of operations from a state. -/
def run [LinearOrder T] (q : PriorityBlockingQueue T) :
    List (Op T) → Option (PriorityBlockingQueue T)
  | [] => some q
  | op :: ops =>
    match runOp q op with
    | some q' => run q' ops
    | none => none

end PBQ

namespace PBQ

variable {T : Type}

lemma heapPush_perm [LinearOrder T] (h : List T) (t : T) :
    List.Perm (heapPush h t) (t :: h) :=
  List.perm_orderedInsert _ t h

lemma heapPush_length [LinearOrder T] (h : List T) (t : T) :
    (heapPush h t).length = h.length + 1 := by
  simpa using (heapPush_perm h t).length_eq

lemma heapPush_sorted [LinearOrder T] {h : List T} (t : T)
    (hs : List.Sorted (· ≥ ·) h) :
    List.Sorted (· ≥ ·) (heapPush h t) :=
  List.Sorted.orderedInsert t h hs

lemma push_of_lt [LinearOrder T] {q : PriorityBlockingQueue T} (t : T)
    (h : q.elements.length < q.max_capacity) :
    push q t =
      (Except.ok (), ⟨heapPush q.elements t, true, q.max_capacity⟩) := by
  rw [push, if_neg (by omega)]
  rfl

lemma push_of_ge [LinearOrder T] {q : PriorityBlockingQueue T} (t : T)
    (h : q.max_capacity ≤ q.elements.length) :
    push q t = (Except.error Error.QueueCapacityReached, q) := by
  rw [push, if_pos h]

lemma pop_cons {q : PriorityBlockingQueue T} {x : T} {xs : List T}
    (hne : q.non_empty = true) (hx : q.elements = x :: xs) :
    pop q = PopResult.value x { q with elements := xs } := by
  rw [pop, wait_non_empty, if_pos hne, hx]
  rfl

lemma pop_value_inv {q q' : PriorityBlockingQueue T} {t : T}
    (h : pop q = PopResult.value t q') :
    q.non_empty = true ∧ q.elements = t :: q'.elements ∧
      q'.non_empty = true ∧ q'.max_capacity = q.max_capacity := by
  rw [pop, wait_non_empty] at h
  by_cases hb : q.non_empty = true
  · rw [if_pos hb] at h
    cases hq : q.elements with
    | nil => rw [hq] at h; simp [heapPop] at h
    | cons x xs =>
      rw [hq] at h
      simp only [heapPop, PopResult.value.injEq] at h
      obtain ⟨ht, hq'⟩ := h
      subst ht
      subst hq'
      refine ⟨hb, ?_, hb, rfl⟩
      simp [hq]
  · rw [if_neg hb] at h
    exact absurd h (by simp)

lemma pushAll_ok [LinearOrder T] {q q' : PriorityBlockingQueue T}
    {vs : List T} (h : pushAll q vs = Except.ok q') :
    q'.max_capacity = q.max_capacity ∧
      q'.elements.length = q.elements.length + vs.length ∧
      (List.Sorted (· ≥ ·) q.elements → List.Sorted (· ≥ ·) q'.elements) ∧
      q'.non_empty = (q.non_empty || !vs.isEmpty) := by
  induction vs generalizing q with
  | nil =>
    simp only [pushAll, Except.ok.injEq] at h
    subst h
    simp
  | cons t ts ih =>
    rw [pushAll] at h
    by_cases hc : q.max_capacity ≤ q.elements.length
    · rw [push_of_ge t hc] at h
      exact absurd h (by simp)
    · rw [push_of_lt t (by omega)] at h
      obtain ⟨h1, h2, h3, h4⟩ := ih h
      refine ⟨h1, ?_, ?_, ?_⟩
      · simp only [heapPush_length] at h2
        simp only [h2, List.length_cons]
        omega
      · intro hs
        exact h3 (heapPush_sorted t hs)
      · simp only at h4
        simp only [h4, List.isEmpty_cons, Bool.or_true, Bool.true_or,
          Bool.not_false]

lemma popN_eq_take [LinearOrder T] {q : PriorityBlockingQueue T}
    (hne : q.non_empty = true) :
    ∀ {n : Nat}, n ≤ q.elements.length →
      popN q n = some (q.elements.take n,
        { q with elements := q.elements.drop n }) := by
  intro n
  induction n generalizing q with
  | zero =>
    intro _
    simp [popN]
  | succ n ih =>
    intro hn
    obtain ⟨x, xs, hx⟩ : ∃ x xs, q.elements = x :: xs := by
      cases hq : q.elements with
      | nil => rw [hq] at hn; simp at hn
      | cons x xs => exact ⟨x, xs, rfl⟩
    have hn' : n ≤ xs.length := by
      rw [hx] at hn
      simpa using hn
    have h2 := ih
      (show ({ q with elements := xs } :
        PriorityBlockingQueue T).non_empty = true from hne)
      (show n ≤ ({ q with elements := xs } :
        PriorityBlockingQueue T).elements.length from hn')
    rw [popN, pop_cons hne hx]
    simp [h2, hx]

end PBQ

namespace PBQ

lemma runOp_some_inv [LinearOrder T] {q q' : PriorityBlockingQueue T}
    {op : Op T} (h : runOp q op = some q') :
    q'.max_capacity = q.max_capacity ∧
      (q.elements.length ≤ q.max_capacity →
        q'.elements.length ≤ q.max_capacity) := by
  cases op with
  | push t =>
    simp only [runOp, Option.some.injEq] at h
    by_cases hc : q.max_capacity ≤ q.elements.length
    · rw [push_of_ge t hc] at h
      subst h
      exact ⟨rfl, fun hle => hle⟩
    · rw [push_of_lt t (by omega)] at h
      subst h
      refine ⟨rfl, fun _ => ?_⟩
      simp only [heapPush_length]
      omega
  | pop =>
    cases hp : pop q with
    | value t q0 =>
      rw [runOp, hp] at h
      simp only [Option.some.injEq] at h
      subst h
      obtain ⟨-, he, -, hcap⟩ := pop_value_inv hp
      refine ⟨hcap, fun hle => ?_⟩
      rw [he] at hle
      simp only [List.length_cons] at hle
      omega
    | blocked =>
      rw [runOp, hp] at h
      simp at h
    | panicked =>
      rw [runOp, hp] at h
      simp at h
  | len =>
    simp only [runOp, Option.some.injEq] at h
    subst h
    exact ⟨rfl, fun hle => hle⟩

lemma run_inv [LinearOrder T] {c : Nat} {q q' : PriorityBlockingQueue T}
    {ops : List (Op T)} (h : run q ops = some q')
    (hc : q.max_capacity = c) (hle : q.elements.length ≤ c) :
    q'.max_capacity = c ∧ q'.elements.length ≤ c := by
  induction ops generalizing q with
  | nil =>
    simp only [run, Option.some.injEq] at h
    subst h
    exact ⟨hc, hle⟩
  | cons op ops ih =>
    rw [run] at h
    cases ho : runOp q op with
    | none => rw [ho] at h; simp at h
    | some q1 =>
      rw [ho] at h
      obtain ⟨h1, h2⟩ := runOp_some_inv ho
      refine ih h (h1.trans hc) ?_
      rw [← hc]
      exact h2 (hc ▸ hle)

end PBQ

namespace PBQ

/-- C1: for every sequence of successful `push` calls followed by the same
number of `pop` calls (single-threaded), the sequence of values returned by
`pop` is sorted in descending order by the total order of `T`. -/
theorem pops_sorted_descending [LinearOrder T] (c : Nat) (vs : List T)
    (q1 : PriorityBlockingQueue T)
    (h : pushAll (new c) vs = Except.ok q1) :
    ∃ outs q2, popN q1 vs.length = some (outs, q2) ∧
      List.Sorted (· ≥ ·) outs := by
  obtain ⟨hcap, hlen, hsort, hflag⟩ := pushAll_ok h
  have hs : List.Sorted (· ≥ ·) q1.elements := hsort (by simp [new])
  cases vs with
  | nil => exact ⟨[], q1, by simp [popN], by simp⟩
  | cons v vs' =>
    have hne : q1.non_empty = true := by
      simpa [new] using hflag
    have hlen' : (v :: vs').length ≤ q1.elements.length := by
      simp [new] at hlen
      simp [hlen]
    exact ⟨_, _, popN_eq_take hne hlen',
      hs.sublist (List.take_sublist _ _)⟩

/-- Witness for C1 at capacity 2, pushed values `[3, 1]`. -/
theorem pops_sorted_descending_witness :
    ∃ outs q2, popN (⟨[3, 1], true, 2⟩ : PriorityBlockingQueue Int) 2 =
      some (outs, q2) ∧ List.Sorted (· ≥ ·) outs :=
  pops_sorted_descending (T := Int) 2 [3, 1] ⟨[3, 1], true, 2⟩ rfl

/-- C2 (refuted by the code): after `push 1; pop` on a fresh queue of
capacity 10, the `non_empty` flag is still `true` while the heap is empty,
so a second `pop` does not block and its `unwrap` of `BinaryHeap::pop`
panics — a reachable single-threaded failure of `pop`. -/
theorem pop_after_drain_panics :
    pushAll (new 10 : PriorityBlockingQueue Int) [1] =
      Except.ok ⟨[1], true, 10⟩ ∧
    pop (⟨[1], true, 10⟩ : PriorityBlockingQueue Int) =
      PopResult.value 1 ⟨[], true, 10⟩ ∧
    pop (⟨[], true, 10⟩ : PriorityBlockingQueue Int) =
      PopResult.panicked :=
  ⟨rfl, rfl, rfl⟩

/-- C3: after `c` successful pushes on a fresh queue of capacity `c`, the
next push fails with `QueueCapacityReached` and leaves the state (elements,
length, `non_empty` flag) completely unchanged. -/
theorem push_at_capacity_fails [LinearOrder T] (c : Nat) (vs : List T)
    (hlen : vs.length = c) (q1 : PriorityBlockingQueue T)
    (h : pushAll (new c) vs = Except.ok q1) (t : T) :
    push q1 t = (Except.error Error.QueueCapacityReached, q1) ∧
      len q1 = c := by
  obtain ⟨hcap, hl, -, -⟩ := pushAll_ok h
  have h1 : q1.elements.length = c := by
    simp [new] at hl
    omega
  have h2 : q1.max_capacity = c := by
    simpa [new] using hcap
  exact ⟨push_of_ge t (by omega), h1⟩

/-- Witness for C3 at capacity 1 with pushed values `[5]`. -/
theorem push_at_capacity_fails_witness :
    push (⟨[5], true, 1⟩ : PriorityBlockingQueue Int) 0 =
      (Except.error Error.QueueCapacityReached, ⟨[5], true, 1⟩) ∧
    len (⟨[5], true, 1⟩ : PriorityBlockingQueue Int) = 1 :=
  push_at_capacity_fails 1 [5] rfl ⟨[5], true, 1⟩ rfl 0

/-- C4: along every sequence of `push`/`pop`/`len` operations from
`new c`, the element count never exceeds the capacity `c`. -/
theorem count_le_capacity [LinearOrder T] (c : Nat) (ops : List (Op T))
    (q : PriorityBlockingQueue T) (h : run (new c) ops = some q) :
    len q ≤ c :=
  (run_inv (c := c) h rfl (Nat.zero_le c)).2

/-- Witness for C4: capacity 2, operations push 1, push 2, pop, len. -/
theorem count_le_capacity_witness :
    len (⟨[1], true, 2⟩ : PriorityBlockingQueue Int) ≤ 2 :=
  count_le_capacity (T := Int) 2 [Op.push 1, Op.push 2, Op.pop, Op.len]
    ⟨[1], true, 2⟩ rfl

/-- C5: from a queue at full capacity (the state in which a push has just
failed with `QueueCapacityReached`), one `pop` followed by pushes lets
exactly one push succeed: the next push after it fails again. -/
theorem one_pop_frees_one_slot [LinearOrder T]
    (q : PriorityBlockingQueue T)
    (hfull : q.elements.length = q.max_capacity)
    (hne : q.non_empty = true) (hpos : 0 < q.max_capacity) (t u : T) :
    ∃ m q1 q2, pop q = PopResult.value m q1 ∧
      push q1 t = (Except.ok (), q2) ∧
      push q2 u = (Except.error Error.QueueCapacityReached, q2) := by
  obtain ⟨x, xs, hx⟩ : ∃ x xs, q.elements = x :: xs := by
    cases hq : q.elements with
    | nil => rw [hq] at hfull; simp at hfull; omega
    | cons x xs => exact ⟨x, xs, rfl⟩
  have hxs : xs.length + 1 = q.max_capacity := by
    rw [hx] at hfull
    simpa using hfull
  refine ⟨x, { q with elements := xs },
    ⟨heapPush xs t, true, q.max_capacity⟩,
    pop_cons hne hx, ?_, ?_⟩
  · exact push_of_lt t (by show xs.length < q.max_capacity; omega)
  · refine push_of_ge u ?_
    show q.max_capacity ≤ (heapPush xs t).length
    rw [heapPush_length]
    omega

/-- Witness for C5: a full queue of capacity 1 holding `[3]`. -/
theorem one_pop_frees_one_slot_witness :
    ∃ m q1 q2, pop (⟨[3], true, 1⟩ : PriorityBlockingQueue Int) =
        PopResult.value m q1 ∧
      push q1 5 = (Except.ok (), q2) ∧
      push q2 7 = (Except.error Error.QueueCapacityReached, q2) :=
  one_pop_frees_one_slot ⟨[3], true, 1⟩ rfl rfl Nat.one_pos 5 7

/-- C6: the concrete scenario at capacity 2: push 1 ok; push 2 ok;
push 3 fails with `QueueCapacityReached`; pop returns 2; push 3 ok;
len returns 2. -/
theorem scenario_capacity_two :
    push (new 2 : PriorityBlockingQueue Int) 1 =
      (Except.ok (), ⟨[1], true, 2⟩) ∧
    push (⟨[1], true, 2⟩ : PriorityBlockingQueue Int) 2 =
      (Except.ok (), ⟨[2, 1], true, 2⟩) ∧
    push (⟨[2, 1], true, 2⟩ : PriorityBlockingQueue Int) 3 =
      (Except.error Error.QueueCapacityReached, ⟨[2, 1], true, 2⟩) ∧
    pop (⟨[2, 1], true, 2⟩ : PriorityBlockingQueue Int) =
      PopResult.value 2 ⟨[1], true, 2⟩ ∧
    push (⟨[1], true, 2⟩ : PriorityBlockingQueue Int) 3 =
      (Except.ok (), ⟨[3, 1], true, 2⟩) ∧
    len (⟨[3, 1], true, 2⟩ : PriorityBlockingQueue Int) = 2 :=
  ⟨rfl, rfl, rfl, rfl, rfl, rfl⟩

/-- C7: with capacity 0, every push fails with `QueueCapacityReached` in
every state reachable from `new 0`, whatever the value pushed and whatever
calls precede it; the failed push leaves the state unchanged. -/
theorem zero_capacity_push_always_fails [LinearOrder T]
    (ops : List (Op T)) (q : PriorityBlockingQueue T)
    (h : run (new 0) ops = some q) (t : T) :
    push q t = (Except.error Error.QueueCapacityReached, q) := by
  obtain ⟨h1, h2⟩ := run_inv (c := 0) h rfl (Nat.zero_le 0)
  exact push_of_ge t (by omega)

/-- Witness for C7: the empty operation sequence on `new 0`. -/
theorem zero_capacity_push_always_fails_witness :
    push (new 0 : PriorityBlockingQueue Int) 5 =
      (Except.error Error.QueueCapacityReached, new 0) :=
  zero_capacity_push_always_fails [] (new 0) rfl 5

/-- C8: `len` returns the number of elements currently held (the
cardinality of the element multiset) and has no mutation side effect: the
state after a `len` operation is identical to the state before it. -/
theorem len_counts_elements_no_mutation [LinearOrder T]
    (q : PriorityBlockingQueue T) :
    len q = Multiset.card (Multiset.ofList q.elements) ∧
      runOp q Op.len = some q :=
  ⟨by simp [len], rfl⟩

/-- C9: the `non_empty` flag is monotone: `false` at construction, set to
`true` by every successful push, never reset by any operation (`pop`
leaves it `true` and `wait_non_empty` only reads it), so once it is `true`
a `pop` never blocks, whether or not the heap is non-empty. -/
theorem non_empty_flag_monotone [LinearOrder T] (c : Nat) :
    (new c : PriorityBlockingQueue T).non_empty = false ∧
      (∀ (q q' : PriorityBlockingQueue T) (t : T),
        push q t = (Except.ok (), q') → q'.non_empty = true) ∧
      (∀ (q q' : PriorityBlockingQueue T) (op : Op T),
        runOp q op = some q' → q.non_empty = true →
          q'.non_empty = true) ∧
      (∀ q : PriorityBlockingQueue T, q.non_empty = true →
        pop q ≠ PopResult.blocked) := by
  refine ⟨rfl, ?_, ?_, ?_⟩
  · intro q q' t h
    by_cases hc : q.max_capacity ≤ q.elements.length
    · rw [push_of_ge t hc] at h
      exact absurd h (by simp)
    · rw [push_of_lt t (by omega)] at h
      simp only [Prod.mk.injEq, true_and] at h
      subst h
      rfl
  · intro q q' op h hq
    cases op with
    | push t =>
      simp only [runOp, Option.some.injEq] at h
      subst h
      by_cases hc : q.max_capacity ≤ q.elements.length
      · rw [push_of_ge t hc]
        exact hq
      · rw [push_of_lt t (by omega)]
    | pop =>
      cases hp : pop q with
      | value t q0 =>
        rw [runOp, hp] at h
        simp only [Option.some.injEq] at h
        subst h
        exact (pop_value_inv hp).2.2.1
      | blocked => rw [runOp, hp] at h; simp at h
      | panicked => rw [runOp, hp] at h; simp at h
    | len =>
      simp only [runOp, Option.some.injEq] at h
      subst h
      exact hq
  · intro q hq
    rw [pop, wait_non_empty, if_pos hq]
    cases hq2 : q.elements with
    | nil => simp [heapPop]
    | cons x xs => simp [heapPop]

/-- Witness for C9: construction, a successful push, a pop, and a
non-blocking pop on a flag-true empty queue, all at concrete states. -/
theorem non_empty_flag_monotone_witness :
    (new 4 : PriorityBlockingQueue Int).non_empty = false ∧
      (⟨[1], true, 4⟩ : PriorityBlockingQueue Int).non_empty = true ∧
      (⟨[], true, 4⟩ : PriorityBlockingQueue Int).non_empty = true ∧
      pop (⟨[], true, 4⟩ : PriorityBlockingQueue Int) ≠
        PopResult.blocked :=
  ⟨(non_empty_flag_monotone 4).1,
    (non_empty_flag_monotone 4).2.1 (new 4) ⟨[1], true, 4⟩ 1 rfl,
    (non_empty_flag_monotone 4).2.2.1 ⟨[1], true, 4⟩ ⟨[], true, 4⟩
      Op.pop rfl rfl,
    (non_empty_flag_monotone 4).2.2.2 ⟨[], true, 4⟩ rfl⟩

/-- C10: a freshly constructed queue is empty: `len` after `new c` is 0,
for every capacity `c`. -/
theorem new_queue_is_empty (c : Nat) :
    len (new c : PriorityBlockingQueue T) = 0 :=
  rfl

end PBQ
